import Mathlib

/-!
Verification of the dividend-collection scripts of this repository.

The development shallowly embeds the JavaScript sources:

* `src/unnamed/part_002` — the "safe mode" collector (retrying executor
  `fetchWithRetry`, User-Agent rotation `getNextUA`, per-stock fetch
  `fetchStockData`, progress save/load, statistics `getSectorStats`,
  `getYieldRanges`, and the output assembly of `fetchDividendStocks`);
* `src/unnamed/part_001` — an earlier collector variant (random User-Agent
  selection `getRandomUA`, linear retry backoff);
* `src/unnamed/part_000` — the batch variant with by-year dividend history
  (`parseDividendHistory`, `calculateDividendGrowth`);
* `src/scripts/fetch-dividends.js` — the variant whose
  `parseDividendHistory` returns raw per-payment rows.

Machine floats of JavaScript are modelled over `ℚ`; `parseFloat` and
`parseInt` return `Option ℚ` / `Option ℤ` with `none` playing the role of
`NaN`.  The `Infinity` literal and hexadecimal `parseInt` prefixes are not
modelled; no input relevant to the verified properties produces them.
-/

namespace DataGuxi

/-- Numeric value of a decimal digit character. -/
def digitVal (c : Char) : ℕ := c.toNat - 48

/-- Value of a digit run, most significant first. -/
def digitsToNat (ds : List Char) : ℕ :=
  ds.foldl (fun n c => 10 * n + digitVal c) 0

/-- Exponent part of a JavaScript float literal: `e`/`E`, optional sign,
digits.  An ill-formed exponent contributes factor `10 ^ 0`, matching
`parseFloat`, which stops consuming at the first invalid character. -/
def parseExpDigits (cs : List Char) : ℤ :=
  match cs with
  | '-' :: r =>
    let ds := r.takeWhile Char.isDigit
    if ds.isEmpty then 0 else -(digitsToNat ds : ℤ)
  | '+' :: r =>
    let ds := r.takeWhile Char.isDigit
    if ds.isEmpty then 0 else (digitsToNat ds : ℤ)
  | r =>
    let ds := r.takeWhile Char.isDigit
    if ds.isEmpty then 0 else (digitsToNat ds : ℤ)

/-- Exponent marker of a JavaScript float literal. -/
def parseExpPart (cs : List Char) : ℤ :=
  match cs with
  | 'e' :: rest => parseExpDigits rest
  | 'E' :: rest => parseExpDigits rest
  | _ => 0

/-- Model of JavaScript `parseFloat` on a character list: skip leading
whitespace, optional sign, integer digits, optional fraction, optional
exponent; `none` models `NaN` (no numeric prefix at all).  The value
`sign * (ip + fp / 10 ^ |fp|) * 10 ^ e` is assembled with integer
arithmetic and `mkRat` so that it evaluates by kernel reduction. -/
def parseFloatChars (cs : List Char) : Option ℚ :=
  let cs0 := cs.dropWhile Char.isWhitespace
  let sgnZ : ℤ := match cs0 with | '-' :: _ => -1 | _ => 1
  let cs1 : List Char := match cs0 with
    | '-' :: r => r
    | '+' :: r => r
    | r => r
  let ip := cs1.takeWhile Char.isDigit
  let cs2 := cs1.dropWhile Char.isDigit
  let fp : List Char := match cs2 with
    | '.' :: r => r.takeWhile Char.isDigit
    | _ => []
  let cs3 : List Char := match cs2 with
    | '.' :: r => r.dropWhile Char.isDigit
    | r => r
  if ip.isEmpty && fp.isEmpty then none
  else
    let m : ℤ := (digitsToNat ip : ℤ) * ((10 ^ fp.length : ℕ) : ℤ) + (digitsToNat fp : ℤ)
    let e : ℤ := parseExpPart cs3
    if 0 ≤ e then some (mkRat (sgnZ * m * ((10 ^ e.toNat : ℕ) : ℤ)) (10 ^ fp.length))
    else some (mkRat (sgnZ * m) (10 ^ fp.length * 10 ^ (-e).toNat))

/-- Model of JavaScript `parseFloat` on strings. -/
def parseFloatJS (s : String) : Option ℚ := parseFloatChars s.data

/-- Model of JavaScript `parseInt` (no radix argument, decimal input):
skip whitespace, optional sign, leading digits; `none` models `NaN`. -/
def parseIntJS (s : String) : Option ℤ :=
  let cs0 := s.data.dropWhile Char.isWhitespace
  let sgn : ℤ := match cs0 with | '-' :: _ => -1 | _ => 1
  let cs1 : List Char := match cs0 with
    | '-' :: r => r
    | '+' :: r => r
    | r => r
  let ds := cs1.takeWhile Char.isDigit
  if ds.isEmpty then none else some (sgn * (digitsToNat ds : ℤ))

/-- JavaScript `parseFloat(x) || 0`: `NaN` (and `0` itself) collapse to `0`. -/
def jsNum (o : Option ℚ) : ℚ := o.getD 0

/-- JavaScript falsiness of an optional string field: absent/`null`
(`none`) and the empty string are falsy. -/
def falsyStr : Option String → Bool
  | none => true
  | some s => s = ""

/-! ## Request Executor (`fetchWithRetry`, `src/unnamed/part_002` 130-194) -/

/-- Outcome of a single fetch attempt, as observed by `fetchWithRetry`:
either the transport layer delivered an HTTP response (status code plus the
parsed JSON body for the 2xx case) or `fetch`/`res.json()` threw (timeout
abort or transport error). -/
inductive AttemptOutcome (α : Type) where
  | response (code : ℕ) (payload : α)
  | thrown
deriving DecidableEq

/-- Status codes `fetchWithRetry` retries on: `429`, `403`, `503`, `502`. -/
def retryableStatus (code : ℕ) : Bool :=
  code == 429 || code == 403 || code == 503 || code == 502

/-- `res.ok` of the Fetch API: status in `200..299`. -/
def httpOk (code : ℕ) : Bool := 200 ≤ code && 299 ≥ code

/-- An attempt outcome the executor treats as transient (retried):
a thrown transport error / timeout, or a retryable status code. -/
def transientOutcome {α : Type} : AttemptOutcome α → Bool
  | .thrown => true
  | .response code _ => retryableStatus code

/-- The retry loop of `fetchWithRetry` (`part_002` 133-190).  `outcomes i`
is what attempt `i` observes, `attempt` the current loop index, `remaining`
the retries still allowed (loop guard `attempt <= retries`).  Returns the
function's result together with the number of attempts performed. -/
def fetchLoop {α : Type} (outcomes : ℕ → AttemptOutcome α) :
    (attempt : ℕ) → (remaining : ℕ) → Option α × ℕ
  | attempt, remaining =>
    match outcomes attempt with
    | .response code payload =>
      if retryableStatus code then
        match remaining with
        | 0 => (none, attempt + 1)
        | r + 1 => fetchLoop outcomes (attempt + 1) r
      else if httpOk code then (some payload, attempt + 1)
      else (none, attempt + 1)
    | .thrown =>
      match remaining with
      | 0 => (none, attempt + 1)
      | r + 1 => fetchLoop outcomes (attempt + 1) r

/-- `fetchWithRetry(url, retries)` of `part_002`: attempts are indexed
`0..retries`; the result is `none` exactly when the budget is exhausted or
a terminal non-2xx status is seen. -/
def fetchWithRetry {α : Type} (outcomes : ℕ → AttemptOutcome α) (retries : ℕ) :
    Option α × ℕ :=
  fetchLoop outcomes 0 retries

/-- `CONFIG.RETRY_DELAY` of `part_002` (milliseconds). -/
def RETRY_DELAY : ℚ := 3000

/-- Wait performed at the top of loop iteration `attempt` of `part_002`'s
`fetchWithRetry`: `RETRY_DELAY * Math.pow(1.5, attempt)` for `attempt > 0`,
no wait before the first attempt. -/
def retryWait (attempt : ℕ) : ℚ :=
  if 0 < attempt then RETRY_DELAY * (3 / 2) ^ attempt else 0

/-- `CONFIG.RETRY_DELAY` of `part_001` (milliseconds). -/
def RETRY_DELAY001 : ℚ := 1000

/-- Wait before attempt `attempt` in `part_001`'s `fetchWithRetry` after a
thrown failure: `delay(CONFIG.RETRY_DELAY * (i + 1))` after attempt `i`,
so the wait before attempt `j ≥ 1` is `RETRY_DELAY * j`. -/
def retryWait001 (attempt : ℕ) : ℚ :=
  if 0 < attempt then RETRY_DELAY001 * attempt else 0

/-! ## Identity rotation (`getNextUA`, `part_002` 45-55; `getRandomUA`, `part_001` 544) -/

/-- The `USER_AGENTS` pool of `part_002` (11 request-shape variants). -/
def USER_AGENTS : List String := [
  "Mozilla/5.0 (Windows NT 10.0; Win64; x64) AppleWebKit/537.36 (KHTML, like Gecko) Chrome/121.0.0.0 Safari/537.36",
  "Mozilla/5.0 (Windows NT 10.0; Win64; x64) AppleWebKit/537.36 (KHTML, like Gecko) Chrome/120.0.0.0 Safari/537.36",
  "Mozilla/5.0 (Windows NT 10.0; Win64; x64) AppleWebKit/537.36 (KHTML, like Gecko) Chrome/119.0.0.0 Safari/537.36",
  "Mozilla/5.0 (Windows NT 11.0; Win64; x64) AppleWebKit/537.36 (KHTML, like Gecko) Chrome/121.0.0.0 Safari/537.36",
  "Mozilla/5.0 (Macintosh; Intel Mac OS X 10_15_7) AppleWebKit/537.36 (KHTML, like Gecko) Chrome/121.0.0.0 Safari/537.36",
  "Mozilla/5.0 (Macintosh; Intel Mac OS X 14_0) AppleWebKit/537.36 (KHTML, like Gecko) Chrome/121.0.0.0 Safari/537.36",
  "Mozilla/5.0 (Macintosh; Intel Mac OS X 10_15_7) AppleWebKit/605.1.15 (KHTML, like Gecko) Version/17.2 Safari/605.1.15",
  "Mozilla/5.0 (Macintosh; Intel Mac OS X 14_0) AppleWebKit/605.1.15 (KHTML, like Gecko) Version/17.2 Safari/605.1.15",
  "Mozilla/5.0 (Windows NT 10.0; Win64; x64; rv:122.0) Gecko/20100101 Firefox/122.0",
  "Mozilla/5.0 (Macintosh; Intel Mac OS X 14.0; rv:122.0) Gecko/20100101 Firefox/122.0",
  "Mozilla/5.0 (Windows NT 10.0; Win64; x64) AppleWebKit/537.36 (KHTML, like Gecko) Chrome/121.0.0.0 Safari/537.36 Edg/121.0.0.0"]

/-- `getNextUA` of `part_002`: advances the module-level `currentUAIndex`
to `(currentUAIndex + 1) % USER_AGENTS.length` and returns that entry.
The mutable index is passed and returned explicitly. -/
def getNextUA (currentUAIndex : ℕ) : ℕ × String :=
  let j := (currentUAIndex + 1) % USER_AGENTS.length
  (j, USER_AGENTS.getD j "")

/-- Pool indices returned by `n` successive `getNextUA` calls starting
from index state `i`. -/
def uaIdxSeq (i : ℕ) : ℕ → List ℕ
  | 0 => []
  | n + 1 => (getNextUA i).1 :: uaIdxSeq (getNextUA i).1 n

/-- Index state after `n` successive `getNextUA` calls from state `i`. -/
def uaStateAfter (i : ℕ) : ℕ → ℕ
  | 0 => i
  | n + 1 => uaStateAfter (getNextUA i).1 n

/-- The smaller `USER_AGENTS` pool of `part_001` (6 variants). -/
def USER_AGENTS001 : List String := [
  "Mozilla/5.0 (Windows NT 10.0; Win64; x64) AppleWebKit/537.36 (KHTML, like Gecko) Chrome/120.0.0.0 Safari/537.36",
  "Mozilla/5.0 (Windows NT 10.0; Win64; x64) AppleWebKit/537.36 (KHTML, like Gecko) Chrome/119.0.0.0 Safari/537.36",
  "Mozilla/5.0 (Macintosh; Intel Mac OS X 10_15_7) AppleWebKit/537.36 (KHTML, like Gecko) Chrome/120.0.0.0 Safari/537.36",
  "Mozilla/5.0 (Macintosh; Intel Mac OS X 10_15_7) AppleWebKit/605.1.15 (KHTML, like Gecko) Version/17.0 Safari/605.1.15",
  "Mozilla/5.0 (Windows NT 10.0; Win64; x64; rv:121.0) Gecko/20100101 Firefox/121.0",
  "Mozilla/5.0 (X11; Linux x86_64) AppleWebKit/537.36 (KHTML, like Gecko) Chrome/120.0.0.0 Safari/537.36"]

/-- `getRandomUA` of `part_001` (line 544):
`USER_AGENTS[Math.floor(Math.random() * USER_AGENTS.length)]`.  The random
draw is modelled by its already-floored result `k`. -/
def getRandomUA (k : ℕ) : String := USER_AGENTS001.getD k ""

/-! ## Stock data model and per-entity fetch (`fetchStockData`, `part_002` 301-361) -/

/-- JavaScript `x || ''` on an optional string field. -/
def orEmpty (o : Option String) : String := o.getD ""

/-- JavaScript `x || y` on strings: `y` when `x` is the empty string. -/
def orElseStr (x y : String) : String := if x = "" then y else x

/-- A row of the screener listing call, restricted to the fields
`fetchStockData` reads; optional fields model possibly-absent JSON
members. -/
structure StockListing where
  symbol : String
  name : String
  lastsale : String
  marketCap : String
  sector : Option String
  industry : Option String
deriving DecidableEq

/-- The `data` member of the per-symbol dividends endpoint, restricted to
the fields `fetchStockData` reads. -/
structure DivData where
  yield : Option String
  annualizedDividend : Option String
  exDividendDate : Option String
  dividendPaymentDate : Option String
deriving DecidableEq

/-- The `data` member of the company-profile endpoint (fields read). -/
structure ProfileData where
  companyDescription : Option String
  sector : Option String
  industry : Option String
deriving DecidableEq

/-- Result of `fetchGrowthRate`: both fields are `''` when no growth rate
was determined. -/
structure GrowthInfo where
  growthRate : String
  growthSource : String
deriving DecidableEq

/-- The per-stock record `fetchStockData` builds on success. -/
structure StockRecord where
  symbol : String
  name : String
  price : String
  marketCap : String
  sector : String
  industry : String
  dividendYield : String
  annualDividend : String
  exDividendDate : String
  paymentDate : String
  growthRate : String
  growthSource : String
  description : String
deriving DecidableEq

/-- The validation test of `fetchStockData` (`part_002` 314-319), true iff
the stock is rejected: `!yieldStr || !annualDiv || yieldStr === 'N/A' ||
yieldStr === '--' || annualDiv === 'N/A' || annualDiv === '0' ||
parseFloat(yieldStr) <= 0` (a `NaN` parse makes the last test false). -/
def rejectDividendData (yieldStr annualDiv : Option String) : Bool :=
  falsyStr yieldStr || falsyStr annualDiv ||
  yieldStr == some "N/A" || yieldStr == some "--" ||
  annualDiv == some "N/A" || annualDiv == some "0" ||
  (match parseFloatJS (orEmpty yieldStr) with
   | none => false
   | some q => decide (q ≤ 0))

/-- `fetchStockData` of `part_002` (301-361).  The network calls are the
function's inputs: `divJson` and `profileJson` are `none` when
`fetchWithRetry` returned `null` or the response lacked `data`; `growth`
is the `fetchGrowthRate` result. -/
def fetchStockData (stock : StockListing) (divJson : Option DivData)
    (profileJson : Option ProfileData) (growth : GrowthInfo) : Option StockRecord :=
  match divJson with
  | none => none
  | some divData =>
    if rejectDividendData divData.yield divData.annualizedDividend then none
    else
      let sector0 := orEmpty stock.sector
      let industry0 := orEmpty stock.industry
      some {
        symbol := stock.symbol
        name := stock.name
        price := stock.lastsale
        marketCap := stock.marketCap
        sector := match profileJson with
          | some p => orElseStr (orEmpty p.sector) sector0
          | none => sector0
        industry := match profileJson with
          | some p => orElseStr (orEmpty p.industry) industry0
          | none => industry0
        dividendYield := orEmpty divData.yield
        annualDividend := "$" ++ orEmpty divData.annualizedDividend
        exDividendDate := orEmpty divData.exDividendDate
        paymentDate := orEmpty divData.dividendPaymentDate
        growthRate := orElseStr growth.growthRate "N/A"
        growthSource := growth.growthSource
        description := match profileJson with
          | some p => orEmpty p.companyDescription
          | none => "" }

/-- The invalid-primary-metric condition of the claims: the dividends
payload is absent, or its yield / annualized dividend is missing, `N/A`,
`--`, `0`, or the yield parses to a nonpositive value. -/
def invalidPrimaryMetric (divJson : Option DivData) : Prop :=
  match divJson with
  | none => True
  | some d =>
    d.yield = none ∨ d.yield = some "" ∨ d.yield = some "N/A" ∨ d.yield = some "--" ∨
    d.annualizedDividend = none ∨ d.annualizedDividend = some "" ∨
    d.annualizedDividend = some "N/A" ∨ d.annualizedDividend = some "0" ∨
    (∃ q, parseFloatJS (orEmpty d.yield) = some q ∧ q ≤ 0)

/-! ## Collection loop and checkpointing (`fetchDividendStocks`, `part_002` 439-596) -/

/-- In-memory progress of a `fetchDividendStocks` run: the
`processedSymbols` set (a list read through membership) and the
accumulated `dividendStocks`.  `saveProgress` persists exactly these two
components; `loadProgress` restores them (or the empty state). -/
structure RunState where
  processed : List String
  records : List StockRecord

/-- One iteration of the collection loop (`part_002` 471-481): mark the
symbol processed, then append the record if the per-stock fetch produced
one. -/
def processOne (st : RunState) (stock : StockListing) (result : Option StockRecord) : RunState :=
  { processed := st.processed ++ [stock.symbol]
    records := match result with
      | some r => st.records ++ [r]
      | none => st.records }

/-- The collection loop over the remaining stocks; `fetch` supplies the
per-stock `fetchStockData` outcome. -/
def runLoop (st : RunState) (fetch : StockListing → Option StockRecord) :
    List StockListing → RunState
  | [] => st
  | stock :: rest => runLoop (processOne st stock (fetch stock)) fetch rest

/-- The checkpoint invariant: every collected record's symbol has been
marked processed. -/
def recordsSubsetProcessed (st : RunState) : Prop :=
  ∀ r ∈ st.records, r.symbol ∈ st.processed

/-! ## Final sort and report assembly (`part_002` 514-571) -/

/-- Stable insertion used to model `Array.prototype.sort` (ECMAScript
sorts are stable): `x` is placed before the first element it must
strictly precede, hence after any tie. -/
def insertBy {α : Type} (before : α → α → Bool) (x : α) : List α → List α
  | [] => [x]
  | y :: ys => if before x y then x :: y :: ys else y :: insertBy before x ys

/-- Stable sort modelling `Array.prototype.sort(cmp)` with the strict
precedence relation `before a b ↔ cmp(a, b) < 0`: elements are inserted
left to right, so ties keep their original order. -/
def jsSort {α : Type} (before : α → α → Bool) (l : List α) : List α :=
  l.foldl (fun acc x => insertBy before x acc) []

/-- Being sorted for the strict precedence `before`: no later element
strictly precedes an earlier one. -/
def sortedBy {α : Type} (before : α → α → Bool) (l : List α) : Prop :=
  l.Pairwise (fun a b => before b a = false)

/-- Numeric sort key of the final sort: `parseFloat(s.dividendYield) || 0`. -/
def yieldKey (s : StockRecord) : ℚ := jsNum (parseFloatJS s.dividendYield)

/-- The comparator `(a, b) => yB - yA` of the final sort (`part_002`
515-519) as a strict precedence: `a` precedes `b` iff `yA > yB`. -/
def yieldDescBefore (a b : StockRecord) : Bool := decide (yieldKey b < yieldKey a)

/-- `CONFIG.FILTER_NA` of `part_002`. -/
def FILTER_NA : Bool := false

/-- Steps 4-5 of `fetchDividendStocks` (`part_002` 514-524): sort
`dividendStocks` by dividend yield descending in place, then (when
`FILTER_NA`) drop records without growth data.  The written report's
`stocks` member is exactly this list (`outputData.stocks`, line 570). -/
def outputStocks (collected : List StockRecord) : List StockRecord :=
  let sorted := jsSort yieldDescBefore collected
  if FILTER_NA then sorted.filter (fun s => s.growthRate != "N/A") else sorted

/-! ## Sector statistics (`getSectorStats`, `part_002` 365-382) -/

/-- `s.sector || 'Unknown'`. -/
def sectorKey (s : StockRecord) : String := orElseStr s.sector "Unknown"

/-- One step of the accumulation in `getSectorStats`: create the sector
entry on first sight, bump `count`, and add `parseFloat(s.dividendYield)
|| 0` to `totalYield`.  A JS object keyed by sector is modelled as an
insertion-ordered association list. -/
def bumpSector : List (String × ℕ × ℚ) → String → ℚ → List (String × ℕ × ℚ)
  | [], sec, y => [(sec, 1, y)]
  | (s, c, t) :: rest, sec, y =>
    if s = sec then (s, c + 1, t + y) :: rest
    else (s, c, t) :: bumpSector rest sec y

/-- The `stats` object of `getSectorStats` after its `forEach` pass:
per sector, `(count, totalYield)`. -/
def sectorAccum (l : List StockRecord) : List (String × ℕ × ℚ) :=
  l.foldl (fun acc s => bumpSector acc (sectorKey s) (yieldKey s)) []

/-- `getSectorStats` (`part_002` 365-382): per sector, the record count
and the average `totalYield / count`.  The average is kept as the exact
rational that the source then renders with `toFixed(2) + '%'`. -/
def getSectorStats (l : List StockRecord) : List (String × ℕ × ℚ) :=
  (sectorAccum l).map (fun e => (e.1, e.2.1, e.2.2 / (e.2.1 : ℚ)))

/-- `(count, totalYield)` recorded for a sector. -/
def lookupSectorTotals (l : List StockRecord) (sec : String) : Option (ℕ × ℚ) :=
  ((sectorAccum l).find? (fun e => e.1 == sec)).map (fun e => e.2)

/-- `(count, avgYield)` reported for a sector. -/
def lookupSectorStats (l : List StockRecord) (sec : String) : Option (ℕ × ℚ) :=
  ((getSectorStats l).find? (fun e => e.1 == sec)).map (fun e => e.2)

/-- Per-group average as the specification describes it: records whose
yield does not parse are excluded from the denominator.  Stated from the
spec's words, only to be compared against the source's `getSectorStats`. -/
def specSectorAvg (l : List StockRecord) (sec : String) : ℚ :=
  let group := l.filter (fun s => sectorKey s == sec)
  let numeric := group.filter (fun s => (parseFloatJS s.dividendYield).isSome)
  (numeric.map yieldKey).sum / (numeric.length : ℚ)

/-! ## Yield distribution (`getYieldRanges`, `part_002` 384-401) -/

/-- The bucket chain of `getYieldRanges` (`part_002` 390-397), as the
bucket's position: 0 ↦ `0-2%`, 1 ↦ `2-4%`, 2 ↦ `4-6%`, 3 ↦ `6-8%`,
4 ↦ `8-10%`, 5 ↦ `10%+`. -/
def bucketIndex (y : ℚ) : ℕ :=
  if y < 2 then 0
  else if y < 4 then 1
  else if y < 6 then 2
  else if y < 8 then 3
  else if y < 10 then 4
  else 5

/-- The `ranges` counters of `getYieldRanges`. -/
structure YieldRanges where
  r0to2 : ℕ
  r2to4 : ℕ
  r4to6 : ℕ
  r6to8 : ℕ
  r8to10 : ℕ
  r10plus : ℕ
deriving DecidableEq

/-- One `forEach` step of `getYieldRanges`: bump the bucket selected by
the source's `if`/`else if` chain. -/
def bumpRange (r : YieldRanges) (y : ℚ) : YieldRanges :=
  match bucketIndex y with
  | 0 => { r with r0to2 := r.r0to2 + 1 }
  | 1 => { r with r2to4 := r.r2to4 + 1 }
  | 2 => { r with r4to6 := r.r4to6 + 1 }
  | 3 => { r with r6to8 := r.r6to8 + 1 }
  | 4 => { r with r8to10 := r.r8to10 + 1 }
  | _ => { r with r10plus := r.r10plus + 1 }

/-- `getYieldRanges` (`part_002` 384-401). -/
def getYieldRanges (l : List StockRecord) : YieldRanges :=
  l.foldl (fun r s => bumpRange r (yieldKey s)) ⟨0, 0, 0, 0, 0, 0⟩

/-! ## Dividend history (`parseDividendHistory` of `part_000` 35-75 and of
`src/scripts/fetch-dividends.js` 35-50; `calculateDividendGrowth` of
`part_000` 78-99 and of `fetch-dividends.js` 53-96) -/

/-- One row of `divData.dividends.rows`, restricted to the fields the two
`parseDividendHistory` variants read. -/
structure DividendRow where
  exOrEffDate : Option String
  kind : Option String
  amount : Option String
  declarationDate : Option String
  recordDate : Option String
  payDate : Option String
deriving DecidableEq

/-- JavaScript `str.replace(c, '')` on a single character: removes the
first occurrence only. -/
def removeFirstChar : List Char → Char → List Char
  | [], _ => []
  | x :: xs, c => if x = c then xs else x :: removeFirstChar xs c

/-- JavaScript `str.replace('$', '')`. -/
def removeFirst (s : String) (c : Char) : String := ⟨removeFirstChar s.data c⟩

/-- JavaScript `str.split(c)` on a single-character separator. -/
def splitOnCharAux (c : Char) : List Char → List Char → List (List Char)
  | [], acc => [acc.reverse]
  | x :: xs, acc =>
    if x = c then acc.reverse :: splitOnCharAux c xs []
    else splitOnCharAux c xs (x :: acc)

/-- JavaScript `str.split(c)` on strings. -/
def splitOnChar (s : String) (c : Char) : List String :=
  (splitOnCharAux c s.data []).map (fun cs => ⟨cs⟩)

/-- Year extraction of `parseDividendHistory` in `part_000` (50-56):
`MM/DD/YYYY` dates take the third `/`-part, `YYYY-MM-DD` dates the first
`-`-part; `none` models the JS `null`/`undefined` year. -/
def yearOfDate (exDate : String) : Option String :=
  if exDate.data.contains '/' then (splitOnChar exDate '/').get? 2
  else if exDate.data.contains '-' then (splitOnChar exDate '-').get? 0
  else none

/-- Per-row contribution to `byYear` in `part_000`'s
`parseDividendHistory` (43-66): `none` when the row is skipped (missing
date or amount, year not 4 characters, or amount not parsing above 0). -/
def rowYearAmount (row : DividendRow) : Option (String × ℚ) :=
  let exDate := orEmpty row.exOrEffDate
  let amountStr := orEmpty row.amount
  if exDate = "" || amountStr = "" then none
  else
    match yearOfDate exDate with
    | none => none
    | some year =>
      if year = "" || year.length ≠ 4 then none
      else
        let amount := jsNum (parseFloatJS (removeFirst amountStr '$'))
        if amount ≤ 0 then none else some (year, amount)

/-- `byYear[year] = (byYear[year] || 0) + amount` on an insertion-ordered
association list. -/
def bumpYear : List (String × ℚ) → String → ℚ → List (String × ℚ)
  | [], year, amt => [(year, amt)]
  | (y, a) :: rest, year, amt =>
    if y = year then (y, a + amt) :: rest
    else (y, a) :: bumpYear rest year amt

/-- `byYear[year]` lookup (0 for an absent key). -/
def lookupYear (acc : List (String × ℚ)) (year : String) : ℚ :=
  match acc.find? (fun e => e.1 == year) with
  | some e => e.2
  | none => 0

/-- `x.toFixed(2)` for the nonnegative per-year totals: the value rounded
to hundredths, rendered with two decimals. -/
def toFixed2 (q : ℚ) : String :=
  let n : ℕ := (⌊q * 100 + 1 / 2⌋).toNat
  toString (n / 100) ++ "." ++ (if n % 100 < 10 then "0" else "") ++ toString (n % 100)

/-- An entry of `part_000`'s by-year dividend history. -/
structure YearDividend where
  year : String
  amount : String
deriving DecidableEq

/-- The comparator `(a, b) => parseInt(a.year) - parseInt(b.year)` of
`part_000` (line 74) as a strict precedence: `a` strictly precedes `b`
when both years parse and `a`'s is smaller (a `NaN` comparator result
counts as a tie, per ECMAScript `SortCompare`). -/
def yearAscBefore (a b : YearDividend) : Bool :=
  match parseIntJS a.year, parseIntJS b.year with
  | some x, some y => decide (x < y)
  | _, _ => false

/-- `parseDividendHistory` of `part_000` (35-75): group the amounts by
year, then sort ascending by `parseInt(year)`.  The input is `none` when
`dividends` is falsy or `dividends.rows` is not an array. -/
def parseDividendHistoryByYear (dividends : Option (List DividendRow)) : List YearDividend :=
  match dividends with
  | none => []
  | some rows =>
    let byYear := rows.foldl (fun acc row =>
      match rowYearAmount row with
      | none => acc
      | some e => bumpYear acc e.1 e.2) []
    jsSort yearAscBefore (byYear.map (fun e => { year := e.1, amount := "$" ++ toFixed2 e.2 }))

/-- An entry of `parseDividendHistory` in `src/scripts/fetch-dividends.js`
(40-48): one per dividend payment, fields defaulted to `''`. -/
structure HistoryEntry where
  exDate : String
  kind : String
  amount : String
  declarationDate : String
  recordDate : String
  payDate : String
deriving DecidableEq

/-- `parseDividendHistory` of `src/scripts/fetch-dividends.js` (35-50):
map the raw rows to entries and keep those with nonempty `exDate` and
`amount`; no grouping, no sorting. -/
def parseDividendHistoryRows (dividends : Option (List DividendRow)) : List HistoryEntry :=
  match dividends with
  | none => []
  | some rows =>
    (rows.map (fun row =>
      { exDate := orEmpty row.exOrEffDate
        kind := orEmpty row.kind
        amount := orEmpty row.amount
        declarationDate := orEmpty row.declarationDate
        recordDate := orEmpty row.recordDate
        payDate := orEmpty row.payDate : HistoryEntry })).filter
      (fun item => item.exDate != "" && item.amount != "")

/-- Period key of a raw history entry, as `calculateDividendGrowth` in
the same file derives it (line 62):
`item.exDate.split('/')[2] || item.exDate.split('-')[0]`. -/
def entryYear (item : HistoryEntry) : String :=
  orElseStr (orEmpty ((splitOnChar item.exDate '/').get? 2))
    (orEmpty ((splitOnChar item.exDate '-').get? 0))

/-- Result of a `calculateDividendGrowth` variant.  The successful branch
computes `(Math.pow(latest / oldest, 1 / span) - 1) * 100`, a real-valued
root with no exact rational value, so it is captured symbolically by
`cagrOf` with the formula's exact inputs; `na` is the `'N/A'` rate. -/
inductive GrowthRate where
  | na
  | cagrOf (oldest latest : ℚ) (span : ℤ)
deriving DecidableEq

/-- The `{ rate, years }` object both variants return. -/
structure DividendGrowth where
  rate : GrowthRate
  years : ℤ
deriving DecidableEq

/-- `calculateDividendGrowth` of `part_000` (78-99): compare the oldest
and the latest by-year entries. -/
def calculateDividendGrowth (history : Option (List YearDividend)) : DividendGrowth :=
  match history with
  | none => { rate := .na, years := 0 }
  | some h =>
    if h.length < 2 then { rate := .na, years := 0 }
    else
      let first := h.headD { year := "", amount := "" }
      let last := h.getLastD { year := "", amount := "" }
      match parseIntJS last.year, parseIntJS first.year,
          parseFloatJS (removeFirst first.amount '$'),
          parseFloatJS (removeFirst last.amount '$') with
      | some ly, some oy, some oa, some la =>
        if 0 < ly - oy ∧ 0 < oa ∧ 0 < la then
          { rate := .cagrOf oa la (ly - oy), years := ly - oy }
        else { rate := .na, years := 0 }
      | _, _, _, _ => { rate := .na, years := 0 }

/-- The default `Array.prototype.sort()` comparator on strings
(code-unit order) as a strict precedence. -/
def stringAscBefore (a b : String) : Bool := a < b

/-- `calculateDividendGrowth` of `src/scripts/fetch-dividends.js`
(53-96): group the raw rows by year, sort the year keys with the default
string sort, and compare the oldest against the latest year. -/
def calculateDividendGrowthRows (history : Option (List HistoryEntry)) : DividendGrowth :=
  match history with
  | none => { rate := .na, years := 0 }
  | some h =>
    if h.length < 2 then { rate := .na, years := 0 }
    else
      let byYear := h.foldl (fun acc item =>
        if item.exDate = "" then acc
        else
          let year := entryYear item
          if year = "" || year.length ≠ 4 then acc
          else
            let amount := jsNum (parseFloatJS (removeFirst item.amount '$'))
            if 0 < amount then bumpYear acc year amount else acc) []
      let years := jsSort stringAscBefore (byYear.map (fun e => e.1))
      if years.length < 2 then { rate := .na, years := years.length }
      else
        let oldestYear := years.headD ""
        let latestYear := years.getLastD ""
        let oldestAmount := lookupYear byYear oldestYear
        let latestAmount := lookupYear byYear latestYear
        match parseIntJS latestYear, parseIntJS oldestYear with
        | some ly, some oy =>
          if 0 < ly - oy ∧ 0 < oldestAmount then
            { rate := .cagrOf oldestAmount latestAmount (ly - oy), years := ly - oy }
          else { rate := .na, years := years.length }
        | _, _ => { rate := .na, years := years.length }

/-- The C8 invariant on the by-year history: period keys pairwise
distinct, list ascending by `parseInt` of the year. -/
def historyInvariantByYear (h : List YearDividend) : Prop :=
  (h.map YearDividend.year).Nodup ∧ sortedBy yearAscBefore h

/-- The C8 invariant read on the raw-row history of
`src/scripts/fetch-dividends.js`: period keys (years) pairwise distinct,
list ascending by `parseInt` of the year. -/
def historyInvariantRows (h : List HistoryEntry) : Prop :=
  (h.map entryYear).Nodup ∧
  h.Pairwise (fun a b =>
    (match parseIntJS (entryYear b), parseIntJS (entryYear a) with
     | some x, some y => decide (x < y)
     | _, _ => false) = false)

/-- A record with the given sector and yield and all other fields empty;
used to build concrete instances. -/
def sampleRecord (sec y : String) : StockRecord :=
  ⟨"", "", "", "", sec, "", y, "", "", "", "", "", ""⟩

/-- Under all-transient outcomes the loop consumes its whole budget. -/
theorem fetchLoop_all_transient {α : Type} (outcomes : ℕ → AttemptOutcome α)
    (h : ∀ i, transientOutcome (outcomes i) = true) :
    ∀ remaining attempt, fetchLoop outcomes attempt remaining = (none, attempt + remaining + 1) := by
  intro remaining
  induction remaining with
  | zero =>
    intro attempt
    rw [fetchLoop]
    have ht := h attempt
    cases ho : outcomes attempt with
    | thrown => simp
    | response code payload =>
      rw [ho] at ht
      simp only [transientOutcome] at ht
      simp [ht]
  | succ r ih =>
    intro attempt
    rw [fetchLoop]
    have ht := h attempt
    cases ho : outcomes attempt with
    | thrown =>
      simp only
      rw [ih (attempt + 1)]
      ring_nf
    | response code payload =>
      rw [ho] at ht
      simp only [transientOutcome] at ht
      simp only [ht, if_true]
      rw [ih (attempt + 1)]
      ring_nf

/-- C1 (counterexample): with one retry allowed (`retries = R = 1`) and a
transport error thrown on every try, `fetchWithRetry` returns `null` after
2 attempts, not after `R = 1` attempts as the claim states. -/
theorem fetchWithRetry_two_attempts_on_budget_one :
    fetchWithRetry (α := ℕ) (fun _ => AttemptOutcome.thrown) 1 = (none, 2) ∧ (2 : ℕ) ≠ 1 := by
  constructor
  · decide
  · decide

/-- C1 (amended): for every retry budget `R`, if every attempt fails with
a transient outcome (timeout / thrown transport error, or a retryable
status), `fetchWithRetry` with `retries = R` returns the exhausted result
`null` after exactly `R + 1` attempts (the initial try plus `R` retries). -/
theorem fetchWithRetry_exhausts_budget {α : Type} (outcomes : ℕ → AttemptOutcome α)
    (R : ℕ) (h : ∀ i, transientOutcome (outcomes i) = true) :
    fetchWithRetry outcomes R = (none, R + 1) := by
  unfold fetchWithRetry
  rw [fetchLoop_all_transient outcomes h R 0]
  simp

/-- C1 (witness): the amended theorem applied to a budget of 3 retries
with a 429 status on every attempt. -/
theorem fetchWithRetry_exhausts_budget_witness :
    fetchWithRetry (α := ℕ) (fun _ => AttemptOutcome.response 429 0) 3 = (none, 3 + 1) :=
  fetchWithRetry_exhausts_budget (fun _ => AttemptOutcome.response 429 0) 3 (fun _ => rfl)

/-- C4 (counterexample): in the `part_001` executor the wait before a
retry grows linearly (`RETRY_DELAY * (i + 1)`), so there is no fixed
factor `c > 1` with `wait(i+1) = c * wait(i)` for every retry index `i`:
the first two ratios already disagree (2000/1000 = 2 but 3000/2000 = 3/2). -/
theorem retryWait001_no_fixed_factor :
    ¬ ∃ c : ℚ, 1 < c ∧ ∀ i, 1 ≤ i → retryWait001 (i + 1) = c * retryWait001 i := by
  rintro ⟨c, -, hc⟩
  have h1 := hc 1 le_rfl
  have h2 := hc 2 (by norm_num)
  norm_num [retryWait001, RETRY_DELAY001] at h1 h2
  linarith

/-- C4 (amended): the `part_002` executor's wait before retry `i + 1` is
the wait before retry `i` multiplied by the fixed factor `3/2 > 1`
(exponential intra-retry backoff), and its per-attempt wait is
non-decreasing; the `part_001` executor's wait instead grows linearly
(each retry adds `RETRY_DELAY`), which is still non-decreasing. -/
theorem retry_backoff_growth :
    (∀ i : ℕ, 1 ≤ i → retryWait (i + 1) = (3 / 2) * retryWait i) ∧
    (1 : ℚ) < 3 / 2 ∧
    (∀ i : ℕ, retryWait i ≤ retryWait (i + 1)) ∧
    (∀ i : ℕ, 1 ≤ i → retryWait001 (i + 1) = retryWait001 i + RETRY_DELAY001) ∧
    (∀ i : ℕ, retryWait001 i ≤ retryWait001 (i + 1)) := by
  have hfac : (1 : ℚ) ≤ 3 / 2 := by norm_num
  refine ⟨?_, by norm_num, ?_, ?_, ?_⟩
  · intro i hi
    have h0 : 0 < i := hi
    simp only [retryWait, if_pos h0, if_pos (Nat.lt_of_lt_of_le h0 (Nat.le_succ i))]
    rw [pow_succ]
    ring
  · intro i
    cases i with
    | zero =>
      simp only [retryWait, RETRY_DELAY]
      norm_num
    | succ n =>
      simp only [retryWait, if_pos (Nat.succ_pos n), if_pos (Nat.succ_pos (n + 1))]
      have hp : ((3 : ℚ) / 2) ^ (n + 1) ≤ (3 / 2) ^ (n + 1 + 1) :=
        pow_le_pow_right₀ hfac (Nat.le_succ _)
      have h3 : (0 : ℚ) ≤ 3000 := by norm_num
      simpa [RETRY_DELAY] using mul_le_mul_of_nonneg_left hp h3
  · intro i hi
    have h0 : 0 < i := hi
    simp only [retryWait001, if_pos h0, if_pos (Nat.lt_of_lt_of_le h0 (Nat.le_succ i))]
    push_cast
    ring
  · intro i
    cases i with
    | zero =>
      simp only [retryWait001, RETRY_DELAY001]
      norm_num
    | succ n =>
      simp only [retryWait001, RETRY_DELAY001, if_pos (Nat.succ_pos n),
        if_pos (Nat.succ_pos (n + 1))]
      push_cast
      linarith

/-- C4 (witness): the amended theorem at retry index 1 — the second
retry's wait is 3/2 times the first retry's wait, and the linear
variant's second wait is the first plus `RETRY_DELAY`. -/
theorem retry_backoff_growth_witness :
    retryWait (1 + 1) = (3 / 2) * retryWait 1 ∧
    retryWait001 (1 + 1) = retryWait001 1 + RETRY_DELAY001 :=
  ⟨retry_backoff_growth.1 1 le_rfl, retry_backoff_growth.2.2.2.1 1 le_rfl⟩

/-- Splitting a run of `getNextUA` calls. -/
theorem uaIdxSeq_append (b : ℕ) :
    ∀ (a i : ℕ), uaIdxSeq i (a + b) = uaIdxSeq i a ++ uaIdxSeq (uaStateAfter i a) b := by
  intro a
  induction a with
  | zero => intro i; simp [uaIdxSeq, uaStateAfter]
  | succ n ih =>
    intro i
    rw [Nat.succ_add]
    simp only [uaIdxSeq, uaStateAfter]
    rw [ih]
    simp

/-- Eleven consecutive calls return to the same rotation state. -/
theorem uaStateAfter_cycle : ∀ i < 11, uaStateAfter i 11 = i := by decide

/-- Over one full cycle from any in-range state, each pool slot is
returned exactly once. -/
theorem uaIdxSeq_cycle_count : ∀ i < 11, ∀ r < 11, (uaIdxSeq i 11).count r = 1 := by decide

/-- C5 (counterexample): the User-Agent selector of `part_001`,
`getRandomUA`, returns different pool entries for different values of the
`Math.random()` draw — a random choice is involved, contrary to the
claim, and a drawn index can starve the other variants. -/
theorem getRandomUA_depends_on_random_draw :
    getRandomUA 0 ≠ getRandomUA 1 := by decide

/-- C5 (amended): the `part_002` selector `getNextUA` cycles
deterministically through the fixed pool: the pool entries are pairwise
distinct, each call returns the pool entry at the rotated index, and over
any `n = poolSize * m` consecutive calls from an in-range state each slot
is returned exactly `m` times, with no random choice involved. -/
theorem ua_rotation_even_coverage :
    USER_AGENTS.Nodup ∧
    (∀ i : ℕ, (getNextUA i).2 = USER_AGENTS.getD ((i + 1) % USER_AGENTS.length) "") ∧
    (∀ i < USER_AGENTS.length, ∀ r < USER_AGENTS.length, ∀ m : ℕ,
      (uaIdxSeq i (USER_AGENTS.length * m)).count r = m) := by
  refine ⟨by decide, fun i => rfl, ?_⟩
  have hlen : USER_AGENTS.length = 11 := rfl
  simp only [hlen]
  intro i hi r hr m
  induction m with
  | zero => simp [uaIdxSeq]
  | succ k ihk =>
    rw [Nat.mul_succ, Nat.add_comm, uaIdxSeq_append, List.count_append,
        uaStateAfter_cycle i hi, ihk, uaIdxSeq_cycle_count i hi r hr]
    exact Nat.add_comm 1 k

/-- C5 (witness): the amended theorem over two full cycles from the
initial index state 0 — slot 5 is returned exactly twice. -/
theorem ua_rotation_even_coverage_witness :
    (uaIdxSeq 0 (USER_AGENTS.length * 2)).count 5 = 2 :=
  ua_rotation_even_coverage.2.2 0 (by decide) 5 (by decide) 2

/-- Stable insertion permutes. -/
theorem insertBy_perm {α : Type} (before : α → α → Bool) (x : α) :
    ∀ l : List α, (insertBy before x l).Perm (x :: l) := by
  intro l
  induction l with
  | nil => exact List.Perm.refl _
  | cons y ys ih =>
    rw [insertBy]
    by_cases h : before x y
    · rw [if_pos h]
    · rw [if_neg h]
      exact (ih.cons y).trans (List.Perm.swap x y ys)

/-- The modelled `Array.prototype.sort` permutes. -/
theorem jsSort_perm_aux {α : Type} (before : α → α → Bool) :
    ∀ (l acc : List α), (l.foldl (fun acc x => insertBy before x acc) acc).Perm (acc ++ l) := by
  intro l
  induction l with
  | nil => intro acc; simp
  | cons x xs ih =>
    intro acc
    rw [List.foldl_cons]
    refine (ih (insertBy before x acc)).trans ?_
    refine (List.Perm.append_right xs (insertBy_perm before x acc)).trans ?_
    exact List.perm_middle.symm

/-- `jsSort` returns a permutation of its input. -/
theorem jsSort_perm {α : Type} (before : α → α → Bool) (l : List α) :
    (jsSort before l).Perm l := by
  simpa using jsSort_perm_aux before l []

/-- With `FILTER_NA` off, the written `stocks` list is a permutation of
the collected records. -/
theorem outputStocks_perm (l : List StockRecord) : (outputStocks l).Perm l := by
  have h : outputStocks l = jsSort yieldDescBefore l := by simp [outputStocks, FILTER_NA]
  rw [h]
  exact jsSort_perm _ _

/-- Stable insertion preserves sortedness, for a precedence that is
asymmetric and transports over ties. -/
theorem insertBy_sortedBy {α : Type} {before : α → α → Bool}
    (hasym : ∀ x y, before x y = true → before y x = false)
    (htrans : ∀ x y z, before x y = true → before z y = false → before z x = false)
    (x : α) : ∀ {l : List α}, sortedBy before l → sortedBy before (insertBy before x l) := by
  intro l
  induction l with
  | nil =>
    intro _
    exact List.pairwise_singleton _ _
  | cons y ys ih =>
    intro hl
    simp only [sortedBy] at hl ⊢
    rw [List.pairwise_cons] at hl
    rw [insertBy]
    by_cases hxy : before x y
    · rw [if_pos hxy]
      refine List.Pairwise.cons ?_ (List.Pairwise.cons hl.1 hl.2)
      intro z hz
      rcases List.mem_cons.mp hz with rfl | hz'
      · exact hasym x z hxy
      · exact htrans x y z hxy (hl.1 z hz')
    · rw [if_neg hxy]
      refine List.Pairwise.cons ?_ (ih hl.2)
      intro z hz
      rcases List.mem_cons.mp ((insertBy_perm before x ys).mem_iff.mp hz) with rfl | hz'
      · exact Bool.eq_false_iff.mpr hxy
      · exact hl.1 z hz'

/-- `jsSort` sorts, for a precedence that is asymmetric and transports
over ties. -/
theorem jsSort_sortedBy {α : Type} {before : α → α → Bool}
    (hasym : ∀ x y, before x y = true → before y x = false)
    (htrans : ∀ x y z, before x y = true → before z y = false → before z x = false)
    (l : List α) : sortedBy before (jsSort before l) := by
  suffices haux : ∀ (l acc : List α), sortedBy before acc →
      sortedBy before (l.foldl (fun acc x => insertBy before x acc) acc) by
    exact haux l [] List.Pairwise.nil
  intro l'
  induction l' with
  | nil => intro acc hacc; exact hacc
  | cons x xs ih =>
    intro acc hacc
    rw [List.foldl_cons]
    exact ih _ (insertBy_sortedBy hasym htrans x hacc)

/-- The yield-descending precedence is asymmetric. -/
theorem yieldDescBefore_asym :
    ∀ a b, yieldDescBefore a b = true → yieldDescBefore b a = false := by
  intro a b h
  simp only [yieldDescBefore, decide_eq_true_eq] at h
  simp only [yieldDescBefore, decide_eq_false_iff_not]
  exact lt_asymm h

/-- The yield-descending precedence transports over ties. -/
theorem yieldDescBefore_trans :
    ∀ a b c, yieldDescBefore a b = true → yieldDescBefore c b = false →
      yieldDescBefore c a = false := by
  intro a b c h1 h2
  simp only [yieldDescBefore, decide_eq_true_eq] at h1
  simp only [yieldDescBefore, decide_eq_false_iff_not] at h2 ⊢
  intro hlt
  exact h2 (lt_trans h1 hlt)

/-- C3 (counterexample): two records collected in the order
`A (yield 1)`, `B (yield 5)` are written in the order `B`, `A` — the
report's `stocks` list is not the insertion order of completion. -/
theorem output_stocks_not_completion_order :
    outputStocks [sampleRecord "A" "1", sampleRecord "B" "5"] ≠
      [sampleRecord "A" "1", sampleRecord "B" "5"] := by decide

/-- C3 (amended): the report's `stocks` list is the collected records
sorted by dividend yield descending (a stable in-place sort applied
before writing): it is a permutation of the collected records in
non-increasing yield order, not their completion order. -/
theorem output_stocks_sorted_by_yield (collected : List StockRecord) :
    (outputStocks collected).Perm collected ∧
    (outputStocks collected).Pairwise (fun a b => yieldKey b ≤ yieldKey a) := by
  have hout : outputStocks collected = jsSort yieldDescBefore collected := by
    simp [outputStocks, FILTER_NA]
  rw [hout]
  refine ⟨jsSort_perm _ _, ?_⟩
  refine (jsSort_sortedBy yieldDescBefore_asym yieldDescBefore_trans collected).imp ?_
  intro a b h
  simp only [yieldDescBefore, decide_eq_false_iff_not] at h
  exact le_of_not_lt h

/-- Keys produced by a `byYear` bump are the old keys plus possibly the
bumped year. -/
theorem bumpYear_keys_subset (year : String) (amt : ℚ) :
    ∀ (acc : List (String × ℚ)) (z : String),
      z ∈ (bumpYear acc year amt).map Prod.fst → z ∈ acc.map Prod.fst ∨ z = year := by
  intro acc
  induction acc with
  | nil =>
    intro z hz
    simp [bumpYear] at hz
    exact Or.inr hz
  | cons e rest ih =>
    intro z hz
    obtain ⟨y, a⟩ := e
    rw [bumpYear] at hz
    by_cases hy : y = year
    · rw [if_pos hy] at hz
      simp only [List.map_cons, List.mem_cons] at hz ⊢
      tauto
    · rw [if_neg hy] at hz
      simp only [List.map_cons, List.mem_cons] at hz ⊢
      rcases hz with rfl | hz'
      · tauto
      · rcases ih z hz' with h' | h' <;> tauto

/-- A `byYear` bump keeps the keys duplicate-free. -/
theorem bumpYear_keys_nodup (year : String) (amt : ℚ) :
    ∀ (acc : List (String × ℚ)),
      (acc.map Prod.fst).Nodup → ((bumpYear acc year amt).map Prod.fst).Nodup := by
  intro acc
  induction acc with
  | nil =>
    intro _
    simp [bumpYear]
  | cons e rest ih =>
    intro hnd
    obtain ⟨y, a⟩ := e
    simp only [List.map_cons, List.nodup_cons] at hnd
    rw [bumpYear]
    by_cases hy : y = year
    · rw [if_pos hy]
      simp only [List.map_cons, List.nodup_cons]
      exact hnd
    · rw [if_neg hy]
      simp only [List.map_cons, List.nodup_cons]
      refine ⟨?_, ih hnd.2⟩
      intro hmem
      rcases bumpYear_keys_subset year amt rest y hmem with h' | h'
      · exact hnd.1 h'
      · exact hy h'

/-- The whole `byYear` accumulation of `part_000` has duplicate-free
keys. -/
theorem byYear_keys_nodup (rows : List DividendRow) :
    ∀ (acc : List (String × ℚ)), (acc.map Prod.fst).Nodup →
      ((rows.foldl (fun acc row =>
          match rowYearAmount row with
          | none => acc
          | some e => bumpYear acc e.1 e.2) acc).map Prod.fst).Nodup := by
  induction rows with
  | nil => intro acc h; exact h
  | cons row rest ih =>
    intro acc h
    rw [List.foldl_cons]
    cases hrow : rowYearAmount row with
    | none => exact ih acc (by simpa [hrow] using h)
    | some e =>
      have := ih (bumpYear acc e.1 e.2) (bumpYear_keys_nodup e.1 e.2 acc h)
      simpa [hrow] using this

/-- The year-ascending precedence is asymmetric. -/
theorem yearAscBefore_asym :
    ∀ a b, yearAscBefore a b = true → yearAscBefore b a = false := by
  intro a b h
  unfold yearAscBefore at h ⊢
  generalize hpa : parseIntJS a.year = oa at h ⊢
  generalize hpb : parseIntJS b.year = ob at h ⊢
  cases oa <;> cases ob <;> simp_all
  omega

/-- The year-ascending precedence transports over ties. -/
theorem yearAscBefore_trans :
    ∀ a b c, yearAscBefore a b = true → yearAscBefore c b = false →
      yearAscBefore c a = false := by
  intro a b c h1 h2
  unfold yearAscBefore at h1 h2 ⊢
  generalize hpa : parseIntJS a.year = oa at h1 h2 ⊢
  generalize hpb : parseIntJS b.year = ob at h1 h2 ⊢
  generalize hpc : parseIntJS c.year = oc at h1 h2 ⊢
  cases oa <;> cases ob <;> cases oc <;> simp_all
  omega

/-- C8 (counterexample): in the `src/scripts/fetch-dividends.js` variant,
two same-year payments (listed most recent first, as the API returns
them) yield a history whose period keys are not unique — the claimed
invariant fails on that variant's `parseDividendHistory`. -/
theorem dividend_history_rows_duplicate_period :
    ¬ historyInvariantRows (parseDividendHistoryRows (some [
      ⟨some "12/15/2023", some "Cash", some "$0.50", none, none, none⟩,
      ⟨some "03/15/2023", some "Cash", some "$0.50", none, none, none⟩])) := by
  intro h
  exact absurd h.1 (by decide)

/-- C8 (amended): the invariant holds for the `part_000` variant — the
by-year history it returns has pairwise-distinct period keys and is
ascending by `parseInt` of the year — while the raw-row variant of
`src/scripts/fetch-dividends.js` gives no such guarantee. -/
theorem dividend_history_by_year_invariant (dividends : Option (List DividendRow)) :
    historyInvariantByYear (parseDividendHistoryByYear dividends) := by
  cases dividends with
  | none =>
    refine ⟨?_, ?_⟩ <;> simp [parseDividendHistoryByYear, historyInvariantByYear, sortedBy]
  | some rows =>
    unfold parseDividendHistoryByYear
    simp only
    constructor
    · have hkeys := byYear_keys_nodup rows [] (by simp)
      set byYear := rows.foldl (fun acc row =>
          match rowYearAmount row with
          | none => acc
          | some e => bumpYear acc e.1 e.2) [] with hbY
      set entries := byYear.map (fun e => ({ year := e.1, amount := "$" ++ toFixed2 e.2 } : YearDividend)) with hent
      have hmapyear : entries.map YearDividend.year = byYear.map Prod.fst := by
        rw [hent, List.map_map]
        rfl
      have hnodup : (entries.map YearDividend.year).Nodup := by
        rw [hmapyear]; exact hkeys
      exact (((jsSort_perm yearAscBefore entries).map YearDividend.year).nodup_iff).mpr hnodup
    · exact jsSort_sortedBy yearAscBefore_asym yearAscBefore_trans _

/-- `processOne` preserves the checkpoint invariant when the fetched
record carries the stock's symbol. -/
theorem processOne_subset (st : RunState) (stock : StockListing) (result : Option StockRecord)
    (hsym : ∀ r, result = some r → r.symbol = stock.symbol)
    (h : recordsSubsetProcessed st) : recordsSubsetProcessed (processOne st stock result) := by
  intro r hr
  cases result with
  | none =>
    simp only [processOne] at hr ⊢
    exact List.mem_append_left _ (h r hr)
  | some r0 =>
    simp only [processOne, List.mem_append] at hr ⊢
    rcases hr with hr | hr
    · exact Or.inl (h r hr)
    · right
      simp only [List.mem_singleton] at hr
      subst hr
      simp [hsym r rfl]

/-- The collection loop preserves the checkpoint invariant. -/
theorem runLoop_subset (fetch : StockListing → Option StockRecord)
    (hsym : ∀ s r, fetch s = some r → r.symbol = s.symbol) :
    ∀ (stocks : List StockListing) (st : RunState),
      recordsSubsetProcessed st → recordsSubsetProcessed (runLoop st fetch stocks) := by
  intro stocks
  induction stocks with
  | nil => intro st h; exact h
  | cons stock rest ih =>
    intro st h
    rw [runLoop]
    exact ih _ (processOne_subset st stock (fetch stock) (fun r hr => hsym stock r hr) h)

/-- C9: at every checkpoint, the partial result set is contained in the
processed-symbol set — it holds for the empty loaded state, it is
preserved through any number of loop iterations from any state satisfying
it (so it holds at every `saveProgress` call and for every state a
well-formed checkpoint restores) — while a processed symbol need not
appear in the partial results, as one skipped stock already shows. -/
theorem checkpoint_partial_subset_processed :
    recordsSubsetProcessed ⟨[], []⟩ ∧
    (∀ (fetch : StockListing → Option StockRecord),
        (∀ s r, fetch s = some r → r.symbol = s.symbol) →
        ∀ (stocks : List StockListing) (st : RunState),
          recordsSubsetProcessed st → recordsSubsetProcessed (runLoop st fetch stocks)) ∧
    (recordsSubsetProcessed (runLoop ⟨[], []⟩ (fun _ => none) [⟨"A", "", "", "", none, none⟩]) ∧
      ¬ ∀ sym ∈ (runLoop ⟨[], []⟩ (fun _ => none)
            [⟨"A", "", "", "", none, none⟩]).processed,
          sym ∈ (runLoop ⟨[], []⟩ (fun _ => none)
            [⟨"A", "", "", "", none, none⟩]).records.map StockRecord.symbol) := by
  refine ⟨?_, ?_, ?_, ?_⟩
  · intro r hr
    simp at hr
  · exact runLoop_subset
  · intro r hr
    simp [runLoop, processOne] at hr
  · intro hall
    have := hall "A" (by simp [runLoop, processOne])
    simp [runLoop, processOne] at this

/-- C9 (witness): the invariant-preservation component applied to one
concrete stock whose fetch is rejected, starting from the empty state. -/
theorem checkpoint_partial_subset_processed_witness :
    recordsSubsetProcessed (runLoop ⟨[], []⟩ (fun _ => none) [⟨"B", "", "", "", none, none⟩]) :=
  checkpoint_partial_subset_processed.2.1 (fun _ => none) (fun _ r hr => by cases hr)
    [⟨"B", "", "", "", none, none⟩] ⟨[], []⟩ (fun r hr => by cases hr)

/-- C10: with a missing history or fewer than two entries, both
`calculateDividendGrowth` variants return the `{ rate: 'N/A', years: 0 }`
sentinel and never reach the compound-growth computation. -/
theorem growth_short_history_sentinel :
    (∀ histO : Option (List YearDividend),
        (histO = none ∨ ∃ l, histO = some l ∧ l.length < 2) →
        calculateDividendGrowth histO = ⟨GrowthRate.na, 0⟩) ∧
    (∀ histO : Option (List HistoryEntry),
        (histO = none ∨ ∃ l, histO = some l ∧ l.length < 2) →
        calculateDividendGrowthRows histO = ⟨GrowthRate.na, 0⟩) := by
  constructor
  · rintro histO (rfl | ⟨l, rfl, hl⟩)
    · rfl
    · simp [calculateDividendGrowth, hl]
  · rintro histO (rfl | ⟨l, rfl, hl⟩)
    · rfl
    · simp [calculateDividendGrowthRows, hl]

/-- C10 (witness): the sentinel at a `null` history and at a one-entry
history, for both variants. -/
theorem growth_short_history_sentinel_witness :
    calculateDividendGrowth none = ⟨GrowthRate.na, 0⟩ ∧
    calculateDividendGrowth (some [⟨"2020", "$1.00"⟩]) = ⟨GrowthRate.na, 0⟩ ∧
    calculateDividendGrowthRows (some [⟨"12/15/2023", "Cash", "$0.50", "", "", ""⟩]) =
      ⟨GrowthRate.na, 0⟩ :=
  ⟨growth_short_history_sentinel.1 none (Or.inl rfl),
   growth_short_history_sentinel.1 (some [⟨"2020", "$1.00"⟩])
     (Or.inr ⟨_, rfl, by decide⟩),
   growth_short_history_sentinel.2 (some [⟨"12/15/2023", "Cash", "$0.50", "", "", ""⟩])
     (Or.inr ⟨_, rfl, by decide⟩)⟩

/-- An invalid primary metric always fails the validation test. -/
theorem invalid_metric_fetch_none (stock : StockListing) (divJson : Option DivData)
    (profileJson : Option ProfileData) (growth : GrowthInfo)
    (h : invalidPrimaryMetric divJson) :
    fetchStockData stock divJson profileJson growth = none := by
  cases divJson with
  | none => rfl
  | some d =>
    have hrej : rejectDividendData d.yield d.annualizedDividend = true := by
      simp only [invalidPrimaryMetric] at h
      rcases h with h | h | h | h | h | h | h | h | ⟨q, hq, hq0⟩
      · simp [rejectDividendData, falsyStr, h]
      · simp [rejectDividendData, falsyStr, h]
      · simp [rejectDividendData, h]
      · simp [rejectDividendData, h]
      · simp [rejectDividendData, falsyStr, h]
      · simp [rejectDividendData, falsyStr, h]
      · simp [rejectDividendData, h]
      · simp [rejectDividendData, h]
      · simp [rejectDividendData, hq, hq0]
    simp [fetchStockData, hrej]

/-- A record built by `fetchStockData` carries the stock's symbol. -/
theorem fetchStockData_symbol {stock : StockListing} {divJson : Option DivData}
    {profileJson : Option ProfileData} {growth : GrowthInfo} {r : StockRecord}
    (h : fetchStockData stock divJson profileJson growth = some r) :
    r.symbol = stock.symbol := by
  cases divJson with
  | none => simp [fetchStockData] at h
  | some d =>
    simp only [fetchStockData] at h
    split at h
    · exact absurd h (by simp)
    · cases h
      rfl

/-- The loop adds no record with a symbol whose fetches all fail. -/
theorem runLoop_records_no_new_symbol (fetch : StockListing → Option StockRecord)
    (hsym : ∀ s r, fetch s = some r → r.symbol = s.symbol) (sym : String) :
    ∀ (stocks : List StockListing) (st : RunState),
      (∀ s ∈ stocks, s.symbol = sym → fetch s = none) →
      (∀ r ∈ st.records, r.symbol ≠ sym) →
      ∀ r ∈ (runLoop st fetch stocks).records, r.symbol ≠ sym := by
  intro stocks
  induction stocks with
  | nil =>
    intro st _ hst
    exact hst
  | cons stock rest ih =>
    intro st hbad hst
    rw [runLoop]
    refine ih _ (fun s hs => hbad s (List.mem_cons_of_mem _ hs)) ?_
    intro r hr
    cases hfetch : fetch stock with
    | none =>
      simp only [processOne, hfetch] at hr
      exact hst r hr
    | some r0 =>
      simp only [processOne, hfetch, List.mem_append] at hr
      rcases hr with hr | hr
      · exact hst r hr
      · simp only [List.mem_singleton] at hr
        subst hr
        intro hcontra
        have hstock : stock.symbol = sym := by
          rw [← hsym stock r hfetch]
          exact hcontra
        have hnone := hbad stock (List.mem_cons_self _ _) hstock
        rw [hnone] at hfetch
        exact Option.noConfusion hfetch

/-- C2: an entity whose primary dividend metric is missing, `N/A`, `--`,
`0`, or parses to a nonpositive value gets no record from
`fetchStockData`, and its symbol never appears among the collected
records, nor in the report's `stocks` list that the sort and filter
produce from them. -/
theorem validation_skip_absolute
    (stocks : List StockListing)
    (divOf : StockListing → Option DivData)
    (profOf : StockListing → Option ProfileData)
    (growthOf : StockListing → GrowthInfo)
    (st : RunState) (sym : String)
    (hbad : ∀ s ∈ stocks, s.symbol = sym → invalidPrimaryMetric (divOf s))
    (hinit : ∀ r ∈ st.records, r.symbol ≠ sym) :
    (∀ s ∈ stocks, s.symbol = sym →
        fetchStockData s (divOf s) (profOf s) (growthOf s) = none) ∧
    (∀ r ∈ (runLoop st (fun s => fetchStockData s (divOf s) (profOf s) (growthOf s))
        stocks).records, r.symbol ≠ sym) ∧
    (∀ r ∈ outputStocks (runLoop st (fun s => fetchStockData s (divOf s) (profOf s)
        (growthOf s)) stocks).records, r.symbol ≠ sym) := by
  have hfetchnone : ∀ s ∈ stocks, s.symbol = sym →
      fetchStockData s (divOf s) (profOf s) (growthOf s) = none :=
    fun s hs hssym => invalid_metric_fetch_none s _ _ _ (hbad s hs hssym)
  have hrec := runLoop_records_no_new_symbol
    (fun s => fetchStockData s (divOf s) (profOf s) (growthOf s))
    (fun s r hr => fetchStockData_symbol hr) sym stocks st hfetchnone hinit
  refine ⟨hfetchnone, hrec, ?_⟩
  intro r hr
  exact hrec r ((outputStocks_perm _).mem_iff.mp hr)

/-- C2 (witness): a single stock whose dividends payload reports the
yield `N/A` is fetched to `null` and appears in no record list. -/
theorem validation_skip_absolute_witness :
    (∀ s ∈ [(⟨"BAD", "Bad Co", "1", "2", none, none⟩ : StockListing)], s.symbol = "BAD" →
        fetchStockData s (some ⟨some "N/A", some "1.0", none, none⟩) none ⟨"", ""⟩ = none) ∧
    (∀ r ∈ (runLoop ⟨[], []⟩
        (fun s => fetchStockData s (some ⟨some "N/A", some "1.0", none, none⟩) none ⟨"", ""⟩)
        [(⟨"BAD", "Bad Co", "1", "2", none, none⟩ : StockListing)]).records,
      r.symbol ≠ "BAD") ∧
    (∀ r ∈ outputStocks (runLoop ⟨[], []⟩
        (fun s => fetchStockData s (some ⟨some "N/A", some "1.0", none, none⟩) none ⟨"", ""⟩)
        [(⟨"BAD", "Bad Co", "1", "2", none, none⟩ : StockListing)]).records,
      r.symbol ≠ "BAD") :=
  validation_skip_absolute [⟨"BAD", "Bad Co", "1", "2", none, none⟩]
    (fun _ => some ⟨some "N/A", some "1.0", none, none⟩) (fun _ => none) (fun _ => ⟨"", ""⟩)
    ⟨[], []⟩ "BAD"
    (fun _ _ _ => by simp [invalidPrimaryMetric])
    (fun r hr => by cases hr)

/-- Bumping a sector updates exactly that sector's entry (creating it on
first sight). -/
theorem bumpSector_find (sec : String) (y : ℚ) :
    ∀ acc : List (String × ℕ × ℚ),
      (bumpSector acc sec y).find? (fun e => e.1 == sec) =
        match acc.find? (fun e => e.1 == sec) with
        | some e => some (e.1, e.2.1 + 1, e.2.2 + y)
        | none => some (sec, 1, y) := by
  intro acc
  induction acc with
  | nil => simp [bumpSector]
  | cons e rest ih =>
    obtain ⟨s, c, t⟩ := e
    rw [bumpSector]
    by_cases hs : s = sec
    · subst hs
      simp [List.find?_cons]
    · have hbeq : (s == sec) = false := by simp [hs]
      rw [if_neg hs]
      simp only [List.find?_cons, hbeq]
      exact ih

/-- `find?` by key commutes with a key-preserving value map. -/
theorem find?_map_value (f : ℕ × ℚ → ℕ × ℚ) (sec : String) :
    ∀ acc : List (String × ℕ × ℚ),
      (acc.map (fun e => (e.1, f e.2))).find? (fun e => e.1 == sec) =
        (acc.find? (fun e => e.1 == sec)).map (fun e => (e.1, f e.2)) := by
  intro acc
  induction acc with
  | nil => simp
  | cons e rest ih =>
    by_cases hs : e.1 = sec
    · simp [List.find?_cons, hs]
    · have hbeq : (e.1 == sec) = false := by simp [hs]
      simp only [List.map_cons, List.find?_cons, hbeq]
      exact ih

/-- C6 (counterexample): for the sector group {yield `2`, yield `N/A`},
`getSectorStats` reports the average `(2 + 0) / 2 = 1`, while excluding
the non-numeric record from the denominator, as the claim requires, would
give `2 / 1 = 2`. -/
theorem sector_avg_denominator_not_excluding :
    lookupSectorStats [sampleRecord "X" "2", sampleRecord "X" "N/A"] "X" = some (2, 1) ∧
    specSectorAvg [sampleRecord "X" "2", sampleRecord "X" "N/A"] "X" = 2 ∧
    (1 : ℚ) ≠ 2 := by
  have hyk1 : yieldKey (sampleRecord "X" "2") = 2 := by decide
  have hyk2 : yieldKey (sampleRecord "X" "N/A") = 0 := by decide
  have hsk1 : sectorKey (sampleRecord "X" "2") = "X" := by decide
  have hsk2 : sectorKey (sampleRecord "X" "N/A") = "X" := by decide
  have haccum : sectorAccum [sampleRecord "X" "2", sampleRecord "X" "N/A"] = [("X", 2, 2)] := by
    simp only [sectorAccum, List.foldl_cons, List.foldl_nil, hsk1, hsk2, hyk1, hyk2, bumpSector]
    norm_num
  refine ⟨?_, ?_, by norm_num⟩
  · simp only [lookupSectorStats, getSectorStats, haccum, List.map_cons, List.map_nil,
      List.find?_cons]
    norm_num
  · have hfil : (([sampleRecord "X" "2", sampleRecord "X" "N/A"].filter
        (fun s => sectorKey s == "X")).filter
        (fun s => (parseFloatJS s.dividendYield).isSome)) = [sampleRecord "X" "2"] := by
      decide
    simp only [specSectorAvg, hfil, List.map_cons, List.map_nil, hyk1, List.sum_cons,
      List.sum_nil, List.length_singleton]
    norm_num

/-- C6 (amended): `getSectorStats` tolerates a record whose yield does
not parse without aborting: the record contributes zero to the group's
`totalYield`, but it is still counted — the reported average divides the
group total by the full group count, the non-numeric record included in
the denominator. -/
theorem sector_avg_counts_nonnumeric
    (l : List StockRecord) (r : StockRecord) (c : ℕ) (t : ℚ)
    (hparse : parseFloatJS r.dividendYield = none)
    (hsec : lookupSectorTotals l (sectorKey r) = some (c, t)) :
    lookupSectorTotals (l ++ [r]) (sectorKey r) = some (c + 1, t) ∧
    lookupSectorStats (l ++ [r]) (sectorKey r) = some (c + 1, t / ((c + 1 : ℕ) : ℚ)) := by
  have hyk : yieldKey r = 0 := by simp [yieldKey, jsNum, hparse]
  have haccum : sectorAccum (l ++ [r]) =
      bumpSector (sectorAccum l) (sectorKey r) (yieldKey r) := by
    simp [sectorAccum, List.foldl_append]
  obtain ⟨k, ht⟩ : ∃ k, (sectorAccum l).find? (fun e => e.1 == sectorKey r) = some (k, c, t) := by
    unfold lookupSectorTotals at hsec
    cases hf : (sectorAccum l).find? (fun e => e.1 == sectorKey r) with
    | none => rw [hf] at hsec; simp at hsec
    | some e =>
      rw [hf] at hsec
      obtain ⟨k, p⟩ := e
      simp only [Option.map] at hsec
      obtain rfl : p = (c, t) := Option.some.inj hsec
      exact ⟨k, rfl⟩
  have hfind : (sectorAccum (l ++ [r])).find? (fun e => e.1 == sectorKey r) =
      some (k, c + 1, t) := by
    rw [haccum, bumpSector_find, ht, hyk]
    simp
  constructor
  · simp [lookupSectorTotals, hfind]
  · have hstats := find?_map_value (fun p => (p.1, p.2 / (p.1 : ℚ))) (sectorKey r)
      (sectorAccum (l ++ [r]))
    simp [lookupSectorStats, getSectorStats, hstats, hfind]

/-- C6 (witness): the amended theorem at the concrete group
{yield `2`, yield `N/A`}. -/
theorem sector_avg_counts_nonnumeric_witness :
    lookupSectorTotals ([sampleRecord "X" "2"] ++ [sampleRecord "X" "N/A"])
      (sectorKey (sampleRecord "X" "N/A")) = some (1 + 1, 2) ∧
    lookupSectorStats ([sampleRecord "X" "2"] ++ [sampleRecord "X" "N/A"])
      (sectorKey (sampleRecord "X" "N/A")) = some (1 + 1, 2 / ((1 + 1 : ℕ) : ℚ)) :=
  sector_avg_counts_nonnumeric [sampleRecord "X" "2"] (sampleRecord "X" "N/A") 1 2
    (by decide) (by decide)

/-- C7: bucketing records with yields 1, 3, 5, 9, 15 counts
{0-2: 1, 2-4: 1, 4-6: 1, 6-8: 0, 8-10: 1, 10+: 1}; and for every
nonnegative metric value each bucket covers an inclusive lower bound and
an exclusive upper bound, with the final bucket unbounded above. -/
theorem yield_ranges_bucketing :
    getYieldRanges [sampleRecord "" "1", sampleRecord "" "3", sampleRecord "" "5",
      sampleRecord "" "9", sampleRecord "" "15"] = ⟨1, 1, 1, 0, 1, 1⟩ ∧
    ∀ y : ℚ, 0 ≤ y →
      ((bucketIndex y = 0 ↔ 0 ≤ y ∧ y < 2) ∧
       (bucketIndex y = 1 ↔ 2 ≤ y ∧ y < 4) ∧
       (bucketIndex y = 2 ↔ 4 ≤ y ∧ y < 6) ∧
       (bucketIndex y = 3 ↔ 6 ≤ y ∧ y < 8) ∧
       (bucketIndex y = 4 ↔ 8 ≤ y ∧ y < 10) ∧
       (bucketIndex y = 5 ↔ 10 ≤ y)) := by
  refine ⟨by decide, ?_⟩
  intro y hy
  rcases lt_or_le y 2 with c2 | c2
  · have e : bucketIndex y = 0 := by simp [bucketIndex, c2]
    rw [e]
    exact ⟨iff_of_true rfl ⟨hy, c2⟩,
      iff_of_false (by norm_num) (fun h => by linarith [h.1]),
      iff_of_false (by norm_num) (fun h => by linarith [h.1]),
      iff_of_false (by norm_num) (fun h => by linarith [h.1]),
      iff_of_false (by norm_num) (fun h => by linarith [h.1]),
      iff_of_false (by norm_num) (fun h => by linarith)⟩
  rcases lt_or_le y 4 with c4 | c4
  · have e : bucketIndex y = 1 := by simp [bucketIndex, not_lt.mpr c2, c4]
    rw [e]
    exact ⟨iff_of_false (by norm_num) (fun h => by linarith [h.2]),
      iff_of_true rfl ⟨c2, c4⟩,
      iff_of_false (by norm_num) (fun h => by linarith [h.1]),
      iff_of_false (by norm_num) (fun h => by linarith [h.1]),
      iff_of_false (by norm_num) (fun h => by linarith [h.1]),
      iff_of_false (by norm_num) (fun h => by linarith)⟩
  rcases lt_or_le y 6 with c6 | c6
  · have e : bucketIndex y = 2 := by
      simp [bucketIndex, not_lt.mpr c2, not_lt.mpr c4, c6]
    rw [e]
    exact ⟨iff_of_false (by norm_num) (fun h => by linarith [h.2]),
      iff_of_false (by norm_num) (fun h => by linarith [h.2]),
      iff_of_true rfl ⟨c4, c6⟩,
      iff_of_false (by norm_num) (fun h => by linarith [h.1]),
      iff_of_false (by norm_num) (fun h => by linarith [h.1]),
      iff_of_false (by norm_num) (fun h => by linarith)⟩
  rcases lt_or_le y 8 with c8 | c8
  · have e : bucketIndex y = 3 := by
      simp [bucketIndex, not_lt.mpr c2, not_lt.mpr c4, not_lt.mpr c6, c8]
    rw [e]
    exact ⟨iff_of_false (by norm_num) (fun h => by linarith [h.2]),
      iff_of_false (by norm_num) (fun h => by linarith [h.2]),
      iff_of_false (by norm_num) (fun h => by linarith [h.2]),
      iff_of_true rfl ⟨c6, c8⟩,
      iff_of_false (by norm_num) (fun h => by linarith [h.1]),
      iff_of_false (by norm_num) (fun h => by linarith)⟩
  rcases lt_or_le y 10 with c10 | c10
  · have e : bucketIndex y = 4 := by
      simp [bucketIndex, not_lt.mpr c2, not_lt.mpr c4, not_lt.mpr c6, not_lt.mpr c8, c10]
    rw [e]
    exact ⟨iff_of_false (by norm_num) (fun h => by linarith [h.2]),
      iff_of_false (by norm_num) (fun h => by linarith [h.2]),
      iff_of_false (by norm_num) (fun h => by linarith [h.2]),
      iff_of_false (by norm_num) (fun h => by linarith [h.2]),
      iff_of_true rfl ⟨c8, c10⟩,
      iff_of_false (by norm_num) (fun h => by linarith)⟩
  · have e : bucketIndex y = 5 := by
      simp [bucketIndex, not_lt.mpr c2, not_lt.mpr c4, not_lt.mpr c6, not_lt.mpr c8,
        not_lt.mpr c10]
    rw [e]
    exact ⟨iff_of_false (by norm_num) (fun h => by linarith [h.2]),
      iff_of_false (by norm_num) (fun h => by linarith [h.2]),
      iff_of_false (by norm_num) (fun h => by linarith [h.2]),
      iff_of_false (by norm_num) (fun h => by linarith [h.2]),
      iff_of_false (by norm_num) (fun h => by linarith [h.2]),
      iff_of_true rfl c10⟩

/-- C7 (witness): the bucket-bound component of the theorem at the value
3, which falls in the second bucket. -/
theorem yield_ranges_bucketing_witness :
    bucketIndex 3 = 1 ↔ 2 ≤ (3 : ℚ) ∧ (3 : ℚ) < 4 :=
  (yield_ranges_bucketing.2 3 (by norm_num)).2.1

end DataGuxi
